import Mathlib

/-!
Verification of the DER codec core (RustCrypto `formats`): the `UtcTime`
leaf type, `Option` (ASN.1 OPTIONAL) decoding and canonical ordering, and
the `Reader` abstraction.  Definitions are shallow embeddings of
`der/src/asn1/utc_time.rs`, `der/src/asn1/optional.rs` and
`der/src/reader.rs`; supporting pieces that live outside those files
(`DateTime`, tag parsing, header parsing, the concrete slice reader) are
modelled from the specification, as marked on each definition.
-/

/-- Modelled from the spec: ASN.1 tags used by this system (spec sections 3
and 6: identifier octet = class + constructed bit + tag number).  The
universal tags the codec recognises; the repository's Tag enum and its
TryFrom<u8> parser are not among the given source files. -/
inductive Tag where
  | boolean
  | integer
  | bitString
  | octetString
  | null
  | objectIdentifier
  | utf8String
  | printableString
  | ia5String
  | utcTime
  | generalizedTime
  | sequence
  | set
  deriving DecidableEq, Repr

/-- Modelled from the spec: the error taxonomy of spec section 7
(Incomplete, Reader, Encoding/Length, Value, DateTime); the repository's
Error/ErrorKind types are not among the given source files. -/
inductive Err where
  | value : Tag → Err
  | dateTime : Err
  | incomplete : Nat → Err
  | readerErr : Err
  | tagUnknown : Nat → Err
  | tagUnexpected : Tag → Tag → Err
  | indefiniteLength : Err
  | nonCanonicalLength : Err
  | lengthOverflow : Err
  | trailingData : Err
  deriving DecidableEq, Repr

/-- The `Result<T>` type of the codec: success or a typed error. -/
inductive DerResult (α : Type) where
  | ok : α → DerResult α
  | error : Err → DerResult α
  deriving DecidableEq, Repr

/-- Modelled from the spec: parsing a single identifier octet as a `Tag`
(spec section 4.2 "identifier octet parsing"; failures are structural
errors).  Mirrors the fallible TryFrom<u8> conversion used by
`Reader::peek_tag` in der/src/reader.rs and by `Option::<T>::decode`. -/
def Tag.tryFrom (byte : Nat) : DerResult Tag :=
  if byte = 0x01 then .ok .boolean
  else if byte = 0x02 then .ok .integer
  else if byte = 0x03 then .ok .bitString
  else if byte = 0x04 then .ok .octetString
  else if byte = 0x05 then .ok .null
  else if byte = 0x06 then .ok .objectIdentifier
  else if byte = 0x0C then .ok .utf8String
  else if byte = 0x13 then .ok .printableString
  else if byte = 0x16 then .ok .ia5String
  else if byte = 0x17 then .ok .utcTime
  else if byte = 0x18 then .ok .generalizedTime
  else if byte = 0x30 then .ok .sequence
  else if byte = 0x31 then .ok .set
  else .error (Err.tagUnknown byte)

/-- The identifier octet a `Tag` encodes to. -/
def Tag.toByte : Tag → Nat
  | .boolean => 0x01
  | .integer => 0x02
  | .bitString => 0x03
  | .octetString => 0x04
  | .null => 0x05
  | .objectIdentifier => 0x06
  | .utf8String => 0x0C
  | .printableString => 0x13
  | .ia5String => 0x16
  | .utcTime => 0x17
  | .generalizedTime => 0x18
  | .sequence => 0x30
  | .set => 0x31

/-- Tag::value_error: a value error associated with this tag. -/
def Tag.valueError (t : Tag) : Err := Err.value t

/-- Modelled from the spec: the proleptic-Gregorian leap-year rule used by
the generic date-time component arithmetic (the datetime module is not
among the given source files). -/
def isLeapYear (y : Nat) : Bool :=
  y % 4 == 0 && (y % 100 != 0 || y % 400 == 0)

/-- Modelled from the spec: days in a month of the proleptic Gregorian
calendar. -/
def daysInMonth (year month : Nat) : Nat :=
  match month with
  | 2 => if isLeapYear year then 29 else 28
  | 4 | 6 | 9 | 11 => 30
  | _ => 31

/-- Modelled from the spec: number of leap years in [1, y] of the
proleptic Gregorian calendar. -/
def leapsBefore (y : Nat) : Nat := y / 4 - y / 100 + y / 400

/-- Modelled from the spec: days from 0001-01-01 to the first day of
year y (the civil-calendar arithmetic backing the Unix-duration
conversion; spec section 4.6 requires the conversion be exact to
one-second resolution). -/
def daysBeforeYear (y : Nat) : Nat := 365 * (y - 1) + leapsBefore (y - 1)

/-- Length in days of a civil year. -/
def yearLength (y : Nat) : Nat := if isLeapYear y then 366 else 365

/-- Total days of the k consecutive months m, m+1, ..., m+k-1 of
year y. -/
def monthDaysFrom (y : Nat) : Nat → Nat → Nat
  | _, 0 => 0
  | m, k + 1 => daysInMonth y m + monthDaysFrom y (m + 1) k

/-- Total days of the k consecutive years y, y+1, ..., y+k-1. -/
def yearsSpan : Nat → Nat → Nat
  | _, 0 => 0
  | y, k + 1 => yearLength y + yearsSpan (y + 1) k

/-- Modelled from the spec: locate the year containing day n, where n
counts days from the start of year y; returns the year and the
remaining day-of-year index.  Fuel-bounded linear search. -/
def findYear : Nat → Nat → Nat → Nat × Nat
  | 0, y, n => (y, n)
  | fuel + 1, y, n =>
    if n < yearLength y then (y, n) else findYear fuel (y + 1) (n - yearLength y)

/-- Modelled from the spec: locate the month containing day-of-year
index n, starting from month m of year y; returns the month and the
one-based day. -/
def findMonth (y : Nat) : Nat → Nat → Nat → Nat × Nat
  | 0, m, n => (m, n + 1)
  | fuel + 1, m, n =>
    if n < daysInMonth y m then (m, n + 1)
    else findMonth y fuel (m + 1) (n - daysInMonth y m)

/-- Day number (counted from 0001-01-01) of the Unix epoch
1970-01-01. -/
def unixEpochDays : Nat := 719162

/-- Modelled from the spec: the generic date-time value backing `UtcTime`
(spec section 3: "a generic date-time value"; the datetime module is not
among the given source files).  Components at one-second granularity. -/
structure DateTime where
  year : Nat
  month : Nat
  day : Nat
  hour : Nat
  minutes : Nat
  seconds : Nat
  deriving DecidableEq, Repr

/-- Modelled from the spec: in-domain date/time components (spec section 7:
DateTime errors are "out-of-domain date/time components").  The spec states
no lower bound on the year beyond the calendar arithmetic itself. -/
def DateTime.valid (dt : DateTime) : Bool :=
  1 ≤ dt.year && 1 ≤ dt.month && dt.month ≤ 12 &&
    1 ≤ dt.day && dt.day ≤ daysInMonth dt.year dt.month &&
    dt.hour < 24 && dt.minutes < 60 && dt.seconds < 60

/-- Modelled from the spec: DateTime::new validates the components and
builds the value, failing with a DateTime error when out of domain. -/
def DateTime.new (year month day hour minutes seconds : Nat) : DerResult DateTime :=
  let dt : DateTime := ⟨year, month, day, hour, minutes, seconds⟩
  if dt.valid then .ok dt else .error Err.dateTime

/-- Day number (from 0001-01-01) of a date-time's calendar date. -/
def DateTime.dayNumber (dt : DateTime) : Nat :=
  daysBeforeYear dt.year + monthDaysFrom dt.year 1 (dt.month - 1) + (dt.day - 1)

/-- Modelled from the spec: seconds since the Unix epoch (signed, so
dates before 1970 are representable; spec section 4.6 requires exactness
to one second). -/
def DateTime.unixDuration (dt : DateTime) : Int :=
  ((dt.dayNumber : Int) - (unixEpochDays : Int)) * 86400
    + (dt.hour * 3600 + dt.minutes * 60 + dt.seconds : Nat)

/-- Modelled from the spec: DateTime::from_unix_duration rebuilds the
date-time components from a count of seconds since the Unix epoch. -/
def DateTime.fromUnixDuration (t : Int) : DerResult DateTime :=
  if t / 86400 + (unixEpochDays : Int) < 0 then .error Err.dateTime
  else
    match findYear ((t / 86400 + (unixEpochDays : Int)).toNat / 365 + 2) 1
        (t / 86400 + (unixEpochDays : Int)).toNat with
    | (y, doy) =>
      match findMonth y 13 1 doy with
      | (m, d) =>
        DateTime.new y m d ((t % 86400).toNat / 3600)
          ((t % 86400).toNat % 3600 / 60) ((t % 86400).toNat % 60)

/-- Modelled from the spec: datetime::decode_decimal parses a strict
two-digit decimal from two ASCII bytes, failing with a value error tied to
the given tag otherwise (spec section 4.6 "every character-pair
representing a strict two-digit decimal"). -/
def decodeDecimal (tag : Tag) (hi lo : Nat) : DerResult Nat :=
  if 48 ≤ hi ∧ hi ≤ 57 ∧ 48 ≤ lo ∧ lo ≤ 57 then
    .ok ((hi - 48) * 10 + (lo - 48))
  else .error (tag.valueError)

/-- Modelled from the spec: datetime::encode_decimal writes a value as two
ASCII decimal digits, failing with a value error tied to the given tag when
the value does not fit in two digits.  The writer is modelled as the list
of emitted bytes. -/
def encodeDecimal (tag : Tag) (value : Nat) : DerResult (List Nat) :=
  if 10 ≤ value / 10 then .error (tag.valueError)
  else .ok [value / 10 + 48, value % 10 + 48]

/-- Maximum year that can be represented as a UTCTime
(utc_time.rs line 16). -/
def MAX_YEAR : Nat := 2049

/-- ASN.1 UTCTime: a newtype over the generic date-time
(utc_time.rs line 34). -/
structure UtcTime where
  toDateTime : DateTime
  deriving DecidableEq, Repr

/-- UtcTime::LENGTH: length of the DER-encoded value (utc_time.rs
line 38). -/
def UtcTime.LENGTH : Nat := 13

/-- UtcTime::from_date_time (utc_time.rs lines 41-47): accept any
date-time whose year is at most MAX_YEAR, else a value error on the
UTCTime tag. -/
def UtcTime.fromDateTime (datetime : DateTime) : DerResult UtcTime :=
  if datetime.year ≤ MAX_YEAR then .ok ⟨datetime⟩
  else .error (Tag.utcTime.valueError)

/-- TryFrom<DateTime> for UtcTime (utc_time.rs lines 159-165) delegates to
from_date_time. -/
def UtcTime.tryFromDateTime (datetime : DateTime) : DerResult UtcTime :=
  UtcTime.fromDateTime datetime

/-- UtcTime::from_unix_duration (utc_time.rs lines 56-58):
DateTime::from_unix_duration followed by the TryFrom conversion. -/
def UtcTime.fromUnixDuration (unixDuration : Int) : DerResult UtcTime :=
  match DateTime.fromUnixDuration unixDuration with
  | .error e => .error e
  | .ok dt => UtcTime.tryFromDateTime dt

/-- UtcTime::to_unix_duration (utc_time.rs lines 61-63). -/
def UtcTime.toUnixDuration (t : UtcTime) : Int :=
  t.toDateTime.unixDuration

/-- UtcTime::decode_value (utc_time.rs lines 82-109) on the raw value
bytes obtained from ByteSlice::decode_value: match the exact 13-byte
YYMMDDHHMMSSZ pattern, parse each two-digit pair, apply the RFC 5280 year
pivot, validate through DateTime::new, and round-trip through the Unix
duration.  (The source's checked_add on year cannot overflow u16 since the
two-digit year is at most 99.) -/
def UtcTime.decodeValue (bytes : List Nat) : DerResult UtcTime :=
  match bytes with
  | [year1, year2, mon1, mon2, day1, day2, hour1, hour2, min1, min2, sec1, sec2, 90] =>
    match decodeDecimal Tag.utcTime year1 year2 with
    | .error e => .error e
    | .ok year =>
    match decodeDecimal Tag.utcTime mon1 mon2 with
    | .error e => .error e
    | .ok month =>
    match decodeDecimal Tag.utcTime day1 day2 with
    | .error e => .error e
    | .ok day =>
    match decodeDecimal Tag.utcTime hour1 hour2 with
    | .error e => .error e
    | .ok hour =>
    match decodeDecimal Tag.utcTime min1 min2 with
    | .error e => .error e
    | .ok minute =>
    match decodeDecimal Tag.utcTime sec1 sec2 with
    | .error e => .error e
    | .ok second =>
    match DateTime.new (if 50 ≤ year then year + 1900 else year + 2000)
        month day hour minute second with
    | .error _ => .error (Tag.utcTime.valueError)
    | .ok dt => UtcTime.fromUnixDuration dt.unixDuration
  | _ => .error (Tag.utcTime.valueError)

/-- UtcTime value_len (utc_time.rs lines 112-114): always 13. -/
def UtcTime.valueLen (_ : UtcTime) : DerResult Nat :=
  .ok UtcTime.LENGTH

/-- UtcTime::encode_value (utc_time.rs lines 116-132): re-derive the
two-digit year from a year in [1950,2049] (value error outside that band),
then write six two-digit pairs followed by the literal Z byte.  The writer
is modelled as the list of emitted bytes.  (The source's u8::try_from on
the re-derived year cannot fail since it is at most 99.) -/
def UtcTime.encodeValue (t : UtcTime) : DerResult (List Nat) :=
  let dt := t.toDateTime
  match (if 1950 ≤ dt.year ∧ dt.year ≤ 1999 then .ok (dt.year - 1900)
         else if 2000 ≤ dt.year ∧ dt.year ≤ 2049 then .ok (dt.year - 2000)
         else .error (Tag.utcTime.valueError) : DerResult Nat) with
  | .error e => .error e
  | .ok year =>
  match encodeDecimal Tag.utcTime year with
  | .error e => .error e
  | .ok b1 =>
  match encodeDecimal Tag.utcTime dt.month with
  | .error e => .error e
  | .ok b2 =>
  match encodeDecimal Tag.utcTime dt.day with
  | .error e => .error e
  | .ok b3 =>
  match encodeDecimal Tag.utcTime dt.hour with
  | .error e => .error e
  | .ok b4 =>
  match encodeDecimal Tag.utcTime dt.minutes with
  | .error e => .error e
  | .ok b5 =>
  match encodeDecimal Tag.utcTime dt.seconds with
  | .error e => .error e
  | .ok b6 =>
  .ok (b1 ++ b2 ++ b3 ++ b4 ++ b5 ++ b6 ++ [90])


/-- Modelled from the spec: the concrete reader over an in-memory byte
buffer (spec sections 2 and 4.1: "caller supplies a byte buffer, a Reader
wraps it", cursor position tracking; the concrete Decoder type is not
among the given source files).  The Reader trait itself is
der/src/reader.rs; its provided methods are defined below against this
state. -/
structure SliceReader where
  input : List Nat
  position : Nat
  deriving DecidableEq, Repr

/-- Reader::input_len (reader.rs line 8). -/
def SliceReader.inputLen (r : SliceReader) : Nat := r.input.length

/-- Reader::peek_byte (reader.rs line 11): next byte without moving the
cursor. -/
def SliceReader.peekByte (r : SliceReader) : Option Nat :=
  r.input.get? r.position

/-- Reader::remaining_len (reader.rs lines 67-70):
input_len.saturating_sub(position); Nat subtraction is saturating. -/
def SliceReader.remainingLen (r : SliceReader) : Nat :=
  r.inputLen - r.position

/-- Reader::is_finished (reader.rs lines 23-25):
remaining_len().is_zero(). -/
def SliceReader.isFinished (r : SliceReader) : Bool :=
  r.remainingLen == 0

/-- Reader::peek_tag (reader.rs lines 31-36): peek a byte and parse it as
a tag, or an incomplete error carrying input_len when exhausted. -/
def SliceReader.peekTag (r : SliceReader) : DerResult Tag :=
  match r.peekByte with
  | some byte => Tag.tryFrom byte
  | none => .error (Err.incomplete r.inputLen)

/-- Reader::read_slice (reader.rs line 45) on the slice-backed reader
(modelled from the spec, section 4.1: returns exactly n bytes and advances
the cursor by n, or fails atomically with an incomplete error). -/
def SliceReader.readSlice (r : SliceReader) (len : Nat) :
    DerResult (List Nat × SliceReader) :=
  if r.position + len ≤ r.input.length then
    .ok ((r.input.drop r.position).take len, ⟨r.input, r.position + len⟩)
  else
    .error (Err.incomplete r.inputLen)

/-- Reader::read_byte (reader.rs lines 60-64), built on read_slice via
read_into specialised to a one-byte buffer. -/
def SliceReader.readByte (r : SliceReader) : DerResult (Nat × SliceReader) :=
  match r.readSlice 1 with
  | .error e => .error e
  | .ok (bs, r') =>
    match bs with
    | [b] => .ok (b, r')
    | _ => .error Err.readerErr

/-- The (tag, length) pairing that precedes every TLV value (spec
section 3). -/
structure Header where
  tag : Tag
  length : Nat
  deriving DecidableEq, Repr

/-- Modelled from the spec: Header decoding (spec sections 4.2 and 6): a
tag octet, then length octets — short form for lengths below 128,
indefinite form (0x80) rejected, long form required to be minimal (no
leading zero octet, and not used for a value below 128). -/
def Header.decode (r : SliceReader) : DerResult (Header × SliceReader) :=
  match r.readByte with
  | .error e => .error e
  | .ok (tb, r) =>
  match Tag.tryFrom tb with
  | .error e => .error e
  | .ok tag =>
  match r.readByte with
  | .error e => .error e
  | .ok (lb, r) =>
  if lb < 0x80 then .ok (⟨tag, lb⟩, r)
  else if lb = 0x80 then .error Err.indefiniteLength
  else if 4 < lb - 0x80 then .error Err.lengthOverflow
  else
    match r.readSlice (lb - 0x80) with
    | .error e => .error e
    | .ok (bs, r) =>
    let len := bs.foldl (fun acc b => acc * 256 + b) 0
    if bs.headD 0 = 0 then .error Err.nonCanonicalLength
    else if len < 0x80 then .error Err.nonCanonicalLength
    else .ok (⟨tag, len⟩, r)

/-- Minimal big-endian base-256 digits of a length. -/
def natBytes (n : Nat) : List Nat :=
  if h : n < 256 then [n]
  else natBytes (n / 256) ++ [n % 256]
  decreasing_by
    have h2 : 256 ≤ n := Nat.le_of_not_lt h
    exact Nat.div_lt_self (Nat.lt_of_lt_of_le (by omega) h2) (by omega)

/-- Modelled from the spec: DER length octets (spec section 6: short form
for lengths below 128, minimal long form otherwise). -/
def lengthOctets (n : Nat) : List Nat :=
  if n < 0x80 then [n]
  else (0x80 + (natBytes n).length) :: natBytes n

/-- The blanket decode for a fixed-tag value (UtcTime): decode the header,
check the tag matches the fixed UTCTime tag, then run decode_value on
exactly header.length bytes of the value (ByteSlice::decode_value). -/
def UtcTime.decode (r : SliceReader) : DerResult (UtcTime × SliceReader) :=
  match Header.decode r with
  | .error e => .error e
  | .ok (header, r) =>
  if header.tag = Tag.utcTime then
    match r.readSlice header.length with
    | .error e => .error e
    | .ok (bs, r) =>
    match UtcTime.decodeValue bs with
    | .error e => .error e
    | .ok t => .ok (t, r)
  else .error (Err.tagUnexpected Tag.utcTime header.tag)

/-- Decode::from_der for UtcTime: decode from a fresh reader over the
buffer and require that all input was consumed. -/
def UtcTime.fromDer (bytes : List Nat) : DerResult UtcTime :=
  match UtcTime.decode ⟨bytes, 0⟩ with
  | .error e => .error e
  | .ok (t, r) => if r.isFinished then .ok t else .error Err.trailingData

/-- Encode for UtcTime: header (UTCTime tag octet and the length octets of
value_len) followed by the value bytes. -/
def UtcTime.encode (t : UtcTime) : DerResult (List Nat) :=
  match t.valueLen with
  | .error e => .error e
  | .ok len =>
  match t.encodeValue with
  | .error e => .error e
  | .ok v => .ok (Tag.utcTime.toByte :: (lengthOctets len ++ v))

/-- Encode::encoded_len for UtcTime: header overhead (one tag octet plus
the length octets) plus the value length. -/
def UtcTime.encodedLen (t : UtcTime) : DerResult Nat :=
  match t.valueLen with
  | .error e => .error e
  | .ok len => .ok (1 + (lengthOctets len).length + len)

/-- The Choice capability (spec sections 3 and 4.4): a type exposing which
tags it claims, together with its decoder; every Decode + FixedTag type
receives this via a blanket implementation. -/
structure Choice (α : Type) where
  canDecode : Tag → Bool
  decode : SliceReader → DerResult (α × SliceReader)

/-- The blanket Choice capability of UtcTime: it claims exactly its fixed
UTCTime tag. -/
def UtcTime.choice : Choice UtcTime :=
  ⟨fun t => t = Tag.utcTime, UtcTime.decode⟩

/-- Decode for Option<T> (optional.rs lines 10-18): peek one byte; if
present, parse it as a tag (propagating the tag-parse failure) and, when
T claims the tag, delegate to T::decode wrapped in Some; in every other
case return Ok(None) with the reader untouched. -/
def decodeOptional {α : Type} (C : Choice α) (r : SliceReader) :
    DerResult (Option α × SliceReader) :=
  match r.peekByte with
  | some byte =>
    match Tag.tryFrom byte with
    | .error e => .error e
    | .ok tag =>
      if C.canDecode tag then
        match C.decode r with
        | .error e => .error e
        | .ok (a, r') => .ok (some a, r')
      else .ok (none, r)
  | none => .ok (none, r)

/-- DerOrd for Option<T> (optional.rs lines 21-34), parametrised by the
inner type's comparator: Some/Some delegates, Some/None is Greater, and
None compares Less. -/
def optionDerCmp {α : Type} (cmp : α → α → DerResult Ordering)
    (self other : Option α) : DerResult Ordering :=
  match self with
  | some a =>
    match other with
    | some b => cmp a b
    | none => .ok Ordering.gt
  | none => .ok Ordering.lt

/-- The spec's conformance predicate for a UTCTime value, written from the
specification's words for comparison with decode_value: exactly 13 bytes,
six two-decimal-digit pairs, final byte the literal Z. -/
def isDigit (b : Nat) : Bool := 48 ≤ b && b ≤ 57

/-- The spec's 13-byte YYMMDDHHMMSSZ pattern (spec section 4.6), as a
predicate on raw value bytes. -/
def conformsUtcTime (bytes : List Nat) : Bool :=
  match bytes with
  | [y1, y2, a1, a2, b1, b2, c1, c2, d1, d2, e1, e2, z] =>
    isDigit y1 && isDigit y2 && isDigit a1 && isDigit a2 &&
      isDigit b1 && isDigit b2 && isDigit c1 && isDigit c2 &&
      isDigit d1 && isDigit d2 && isDigit e1 && isDigit e2 && z == 90
  | _ => false

/-- Every month has at most 31 days. -/
theorem daysInMonth_le (y m : Nat) : daysInMonth y m ≤ 31 := by
  unfold daysInMonth
  split <;> (try split) <;> omega

set_option maxHeartbeats 2000000 in
/-- Stepping to the next year adds exactly that year's length to the
day count. -/
theorem daysBeforeYear_succ (y : Nat) (hy : 1 ≤ y) :
    daysBeforeYear (y + 1) = daysBeforeYear y + yearLength y := by
  unfold daysBeforeYear leapsBefore yearLength isLeapYear
  by_cases hl : (y % 4 == 0 && (y % 100 != 0 || y % 400 == 0)) = true
  · rw [if_pos hl]
    simp only [Bool.and_eq_true, beq_iff_eq, Bool.or_eq_true, bne_iff_ne, ne_eq] at hl
    omega
  · rw [if_neg hl]
    simp only [Bool.and_eq_true, beq_iff_eq, Bool.or_eq_true, bne_iff_ne, ne_eq,
      not_and, not_or] at hl
    omega

/-- The day count before a year decomposes as the span of the years in
between. -/
theorem daysBeforeYear_add : ∀ k y, 1 ≤ y →
    daysBeforeYear (y + k) = daysBeforeYear y + yearsSpan y k := by
  intro k
  induction k with
  | zero => intro y hy; simp [yearsSpan]
  | succ k ih =>
    intro y hy
    have h1 : y + (k + 1) = (y + 1) + k := by omega
    rw [h1, ih (y + 1) (by omega), daysBeforeYear_succ y hy]
    show daysBeforeYear y + yearLength y + yearsSpan (y + 1) k =
      daysBeforeYear y + (yearLength y + yearsSpan (y + 1) k)
    omega

/-- The year search recovers the year and day-of-year from a day count
decomposed over whole years. -/
theorem findYear_spec : ∀ k fuel y doy, k < fuel → doy < yearLength (y + k) →
    findYear fuel y (yearsSpan y k + doy) = (y + k, doy) := by
  intro k
  induction k with
  | zero =>
    intro fuel y doy hf hd
    match fuel with
    | 0 => omega
    | f + 1 =>
      show (if yearsSpan y 0 + doy < yearLength y then (y, yearsSpan y 0 + doy)
        else findYear f (y + 1) (yearsSpan y 0 + doy - yearLength y)) = (y + 0, doy)
      have h0 : yearsSpan y 0 + doy = doy := by simp [yearsSpan]
      rw [h0, if_pos (by simpa using hd)]
      simp
  | succ k ih =>
    intro fuel y doy hf hd
    match fuel with
    | 0 => omega
    | f + 1 =>
      show (if yearsSpan y (k + 1) + doy < yearLength y
          then (y, yearsSpan y (k + 1) + doy)
        else findYear f (y + 1) (yearsSpan y (k + 1) + doy - yearLength y)) =
        (y + (k + 1), doy)
      have hspan : yearsSpan y (k + 1) = yearLength y + yearsSpan (y + 1) k := rfl
      rw [if_neg (by omega)]
      have harg : yearsSpan y (k + 1) + doy - yearLength y =
          yearsSpan (y + 1) k + doy := by omega
      rw [harg, ih f (y + 1) doy (by omega)
        (by rw [show y + 1 + k = y + (k + 1) from by omega]; exact hd)]
      rw [show y + 1 + k = y + (k + 1) from by omega]

/-- Appending one more month at the top of a consecutive-month span. -/
theorem monthDaysFrom_succ (y : Nat) : ∀ k m,
    monthDaysFrom y m (k + 1) = monthDaysFrom y m k + daysInMonth y (m + k) := by
  intro k
  induction k with
  | zero =>
    intro m
    show daysInMonth y m + monthDaysFrom y (m + 1) 0 = monthDaysFrom y m 0 + daysInMonth y (m + 0)
    simp [monthDaysFrom]
  | succ k ih =>
    intro m
    show daysInMonth y m + monthDaysFrom y (m + 1) (k + 1) =
      (daysInMonth y m + monthDaysFrom y (m + 1) k) + daysInMonth y (m + (k + 1))
    rw [ih (m + 1), show m + 1 + k = m + (k + 1) from by omega]
    omega

/-- Month spans grow with the number of months. -/
theorem monthDaysFrom_mono (y : Nat) : ∀ k2 k m, k ≤ k2 →
    monthDaysFrom y m k ≤ monthDaysFrom y m k2 := by
  intro k2
  induction k2 with
  | zero => intro k m h; rw [show k = 0 from by omega]
  | succ k2 ih =>
    intro k m h
    by_cases hk : k = k2 + 1
    · rw [hk]
    · have h2 := ih k m (by omega)
      rw [monthDaysFrom_succ]
      omega

/-- The twelve months of a year sum to the year's length. -/
theorem monthDaysFrom_year (y : Nat) : monthDaysFrom y 1 12 = yearLength y := by
  show 31 + (daysInMonth y 2 + (31 + (30 + (31 + (30 + (31 + (31 + (30 + (31 + (30 + (31 + 0))))))))))) = yearLength y
  unfold daysInMonth yearLength
  by_cases hl : isLeapYear y = true
  · rw [if_pos hl, if_pos hl]
    rfl
  · rw [if_neg hl, if_neg hl]
    rfl

/-- A valid day-of-year index lies inside the year. -/
theorem dayIdx_lt_yearLength (y m d : Nat) (hm1 : 1 ≤ m) (hm2 : m ≤ 12) (hd1 : 1 ≤ d)
    (hd2 : d ≤ daysInMonth y m) :
    monthDaysFrom y 1 (m - 1) + (d - 1) < yearLength y := by
  have h1 := monthDaysFrom_succ y (m - 1) 1
  rw [show m - 1 + 1 = m from by omega, show 1 + (m - 1) = m from by omega] at h1
  have h2 : monthDaysFrom y 1 m ≤ monthDaysFrom y 1 12 := monthDaysFrom_mono y 12 m 1 hm2
  have h3 : monthDaysFrom y 1 12 = yearLength y := monthDaysFrom_year y
  omega

/-- The month search recovers the month and day from a day-of-year
index decomposed over whole months. -/
theorem findMonth_spec (y : Nat) : ∀ k fuel m d, k < fuel → 1 ≤ d →
    d ≤ daysInMonth y (m + k) →
    findMonth y fuel m (monthDaysFrom y m k + (d - 1)) = (m + k, d) := by
  intro k
  induction k with
  | zero =>
    intro fuel m d hf hd1 hd2
    match fuel with
    | 0 => omega
    | f + 1 =>
      show (if monthDaysFrom y m 0 + (d - 1) < daysInMonth y m
          then (m, monthDaysFrom y m 0 + (d - 1) + 1)
        else findMonth y f (m + 1) (monthDaysFrom y m 0 + (d - 1) - daysInMonth y m)) =
        (m + 0, d)
      have h0 : monthDaysFrom y m 0 + (d - 1) = d - 1 := by simp [monthDaysFrom]
      rw [h0, if_pos (by simp at hd2 ⊢; omega)]
      rw [show d - 1 + 1 = d from by omega]
      simp
  | succ k ih =>
    intro fuel m d hf hd1 hd2
    match fuel with
    | 0 => omega
    | f + 1 =>
      show (if monthDaysFrom y m (k + 1) + (d - 1) < daysInMonth y m
          then (m, monthDaysFrom y m (k + 1) + (d - 1) + 1)
        else findMonth y f (m + 1)
          (monthDaysFrom y m (k + 1) + (d - 1) - daysInMonth y m)) = (m + (k + 1), d)
      have hspan : monthDaysFrom y m (k + 1) =
          daysInMonth y m + monthDaysFrom y (m + 1) k := rfl
      rw [if_neg (by omega)]
      have harg : monthDaysFrom y m (k + 1) + (d - 1) - daysInMonth y m =
          monthDaysFrom y (m + 1) k + (d - 1) := by omega
      rw [harg, ih f (m + 1) d (by omega) hd1
        (by rw [show m + 1 + k = m + (k + 1) from by omega]; exact hd2)]
      rw [show m + 1 + k = m + (k + 1) from by omega]
/-- Bounds packaged from a valid `DateTime`. -/
theorem DateTime.valid_iff (dt : DateTime) :
    dt.valid = true ↔
      1 ≤ dt.year ∧ 1 ≤ dt.month ∧ dt.month ≤ 12 ∧ 1 ≤ dt.day ∧
        dt.day ≤ daysInMonth dt.year dt.month ∧ dt.hour < 24 ∧
        dt.minutes < 60 ∧ dt.seconds < 60 := by
  unfold DateTime.valid
  simp only [Bool.and_eq_true, decide_eq_true_eq]
  tauto

/-- Round-trip of a valid date-time through its Unix duration. -/
theorem DateTime.fromUnixDuration_unixDuration (dt : DateTime) (hv : dt.valid = true) :
    DateTime.fromUnixDuration dt.unixDuration = .ok dt := by
  obtain ⟨y, mo, d, h, mi, s⟩ := dt
  obtain ⟨hy, hmo1, hmo2, hd1, hd2, hh, hmi, hs⟩ := (DateTime.valid_iff _).mp hv
  simp only at hy hmo1 hmo2 hd1 hd2 hh hmi hs
  have hsod : h * 3600 + mi * 60 + s < 86400 := by omega
  have hu : DateTime.unixDuration ⟨y, mo, d, h, mi, s⟩ =
      ((DateTime.dayNumber ⟨y, mo, d, h, mi, s⟩ : Int) - (unixEpochDays : Int)) * 86400
        + ((h * 3600 + mi * 60 + s : Nat) : Int) := rfl
  have hediv : DateTime.unixDuration ⟨y, mo, d, h, mi, s⟩ / 86400 =
      (DateTime.dayNumber ⟨y, mo, d, h, mi, s⟩ : Int) - (unixEpochDays : Int) := by
    rw [hu]; omega
  have hemod : DateTime.unixDuration ⟨y, mo, d, h, mi, s⟩ % 86400 =
      ((h * 3600 + mi * 60 + s : Nat) : Int) := by
    rw [hu]; omega
  unfold DateTime.fromUnixDuration
  rw [hediv, hemod]
  have hz : (DateTime.dayNumber ⟨y, mo, d, h, mi, s⟩ : Int) - (unixEpochDays : Int)
      + (unixEpochDays : Int) = (DateTime.dayNumber ⟨y, mo, d, h, mi, s⟩ : Int) := by
    omega
  rw [hz, if_neg (by omega), Int.toNat_natCast, Int.toNat_natCast]
  have hAval : DateTime.dayNumber ⟨y, mo, d, h, mi, s⟩ =
      yearsSpan 1 (y - 1) + (monthDaysFrom y 1 (mo - 1) + (d - 1)) := by
    unfold DateTime.dayNumber
    simp only
    have hdb := daysBeforeYear_add (y - 1) 1 (Nat.le_refl 1)
    rw [show 1 + (y - 1) = y from by omega] at hdb
    have hdb1 : daysBeforeYear 1 = 0 := rfl
    omega
  have hidx : monthDaysFrom y 1 (mo - 1) + (d - 1) < yearLength y :=
    dayIdx_lt_yearLength y mo d hmo1 hmo2 hd1 hd2
  have hfuel : y - 1 < DateTime.dayNumber ⟨y, mo, d, h, mi, s⟩ / 365 + 2 := by
    have hge : 365 * (y - 1) ≤ DateTime.dayNumber ⟨y, mo, d, h, mi, s⟩ := by
      unfold DateTime.dayNumber daysBeforeYear
      simp only
      omega
    omega
  have hfy : findYear (DateTime.dayNumber ⟨y, mo, d, h, mi, s⟩ / 365 + 2) 1
      (DateTime.dayNumber ⟨y, mo, d, h, mi, s⟩) =
      (y, monthDaysFrom y 1 (mo - 1) + (d - 1)) := by
    conv_lhs => rw [hAval]
    rw [findYear_spec (y - 1) _ 1 (monthDaysFrom y 1 (mo - 1) + (d - 1))
      (by rw [← hAval]; exact hfuel)
      (by rw [show 1 + (y - 1) = y from by omega]; exact hidx)]
    rw [show 1 + (y - 1) = y from by omega]
  simp only [hfy]
  have hfm : findMonth y 13 1 (monthDaysFrom y 1 (mo - 1) + (d - 1)) = (mo, d) := by
    have hspec := findMonth_spec y (mo - 1) 13 1 d (by omega) hd1
      (by rw [show 1 + (mo - 1) = mo from by omega]; exact hd2)
    rw [show 1 + (mo - 1) = mo from by omega] at hspec
    exact hspec
  simp only [hfm]
  have e2 : (h * 3600 + mi * 60 + s) / 3600 = h := by omega
  have e3 : (h * 3600 + mi * 60 + s) % 3600 / 60 = mi := by omega
  have e4 : (h * 3600 + mi * 60 + s) % 60 = s := by omega
  rw [e2, e3, e4]
  show (if DateTime.valid ⟨y, mo, d, h, mi, s⟩ = true
    then DerResult.ok (⟨y, mo, d, h, mi, s⟩ : DateTime)
    else DerResult.error Err.dateTime) = DerResult.ok (⟨y, mo, d, h, mi, s⟩ : DateTime)
  rw [if_pos hv]

/-- decode_decimal succeeds exactly on two ASCII digits, with the decoded
two-digit value. -/
theorem decodeDecimal_okEq (tag : Tag) (hi lo : Nat)
    (h : 48 ≤ hi ∧ hi ≤ 57 ∧ 48 ≤ lo ∧ lo ≤ 57) :
    decodeDecimal tag hi lo = .ok ((hi - 48) * 10 + (lo - 48)) := by
  unfold decodeDecimal
  rw [if_pos h]

/-- decode_decimal fails with the tag's value error on any non-digit
input byte. -/
theorem decodeDecimal_error (tag : Tag) (hi lo : Nat)
    (h : ¬(48 ≤ hi ∧ hi ≤ 57 ∧ 48 ≤ lo ∧ lo ≤ 57)) :
    decodeDecimal tag hi lo = .error (Err.value tag) := by
  unfold decodeDecimal
  rw [if_neg h]
  rfl

/-- A successfully decoded two-digit decimal is at most 99. -/
theorem decodeDecimal_le (tag : Tag) (hi lo v : Nat)
    (h : decodeDecimal tag hi lo = .ok v) : v ≤ 99 := by
  unfold decodeDecimal at h
  by_cases hd : 48 ≤ hi ∧ hi ≤ 57 ∧ 48 ≤ lo ∧ lo ≤ 57
  · rw [if_pos hd] at h
    injection h with h
    omega
  · rw [if_neg hd] at h
    exact DerResult.noConfusion h

/-- decode_decimal inverts the two-digit encoding of any value of at most
two digits. -/
theorem decodeDecimal_encode (tag : Tag) (v : Nat) (hv : v ≤ 99) :
    decodeDecimal tag (v / 10 + 48) (v % 10 + 48) = .ok v := by
  rw [decodeDecimal_okEq tag _ _ (by omega)]
  congr 1
  omega

/-- encode_decimal succeeds on any value of at most two digits, emitting
the two ASCII digit bytes. -/
theorem encodeDecimal_ok (tag : Tag) (v : Nat) (hv : v ≤ 99) :
    encodeDecimal tag v = .ok [v / 10 + 48, v % 10 + 48] := by
  unfold encodeDecimal
  rw [if_neg (by omega)]

/-- Round-trip of a valid date-time with year at most 2049 through
UtcTime::from_unix_duration. -/
theorem UtcTime.fromUnixDuration_of_valid (dt : DateTime) (hv : dt.valid = true)
    (hy2 : dt.year ≤ 2049) :
    UtcTime.fromUnixDuration dt.unixDuration = .ok ⟨dt⟩ := by
  unfold UtcTime.fromUnixDuration
  rw [DateTime.fromUnixDuration_unixDuration dt hv]
  show UtcTime.tryFromDateTime dt = .ok ⟨dt⟩
  unfold UtcTime.tryFromDateTime UtcTime.fromDateTime MAX_YEAR
  rw [if_pos (by omega)]

/-- C5: DerOrd for Option compares None below every Some, Some above
None, and delegates two Some values to the inner comparator
(optional.rs lines 21-34). -/
theorem option_der_cmp_cases {α : Type} (cmp : α → α → DerResult Ordering) (a b : α) :
    optionDerCmp cmp none (some b) = .ok Ordering.lt ∧
    optionDerCmp cmp (some a) none = .ok Ordering.gt ∧
    optionDerCmp cmp (some a) (some b) = cmp a b :=
  ⟨rfl, rfl, rfl⟩

/-- C9: DerOrd for Option compares None with None as Less, not Equal: the
comparator is not reflexive on the absent case (optional.rs lines
25-33, the None arm ignores the other operand). -/
theorem option_der_cmp_none_none {α : Type} (cmp : α → α → DerResult Ordering) :
    optionDerCmp cmp none none = .ok Ordering.lt ∧
    optionDerCmp cmp none none ≠ .ok Ordering.eq := by
  constructor
  · rfl
  · intro hcon
    rw [show optionDerCmp cmp none none = .ok Ordering.lt from rfl] at hcon
    injection hcon with hcon
    exact Ordering.noConfusion hcon

/-- C6: from_date_time (and the TryFrom conversion built on it) accepts
exactly the date-times with year at most 2049, rejecting greater years
with a value error on the UTCTime tag (utc_time.rs lines 41-47). -/
theorem utc_from_date_time_max_year (dt : DateTime) :
    (dt.year ≤ 2049 →
      UtcTime.fromDateTime dt = .ok ⟨dt⟩ ∧ UtcTime.tryFromDateTime dt = .ok ⟨dt⟩) ∧
    (2049 < dt.year →
      UtcTime.fromDateTime dt = .error (Err.value Tag.utcTime) ∧
      UtcTime.tryFromDateTime dt = .error (Err.value Tag.utcTime)) := by
  constructor
  · intro hle
    have hok : UtcTime.fromDateTime dt = .ok ⟨dt⟩ := by
      unfold UtcTime.fromDateTime MAX_YEAR
      rw [if_pos (by omega)]
    exact ⟨hok, hok⟩
  · intro hgt
    have herr : UtcTime.fromDateTime dt = .error (Err.value Tag.utcTime) := by
      unfold UtcTime.fromDateTime MAX_YEAR
      rw [if_neg (by omega)]
      rfl
    exact ⟨herr, herr⟩

/-- C6 witness: year 2049 is accepted, year 2050 is rejected. -/
theorem utc_from_date_time_max_year_witness :
    UtcTime.fromDateTime ⟨2049, 12, 31, 23, 59, 59⟩ =
      .ok ⟨⟨2049, 12, 31, 23, 59, 59⟩⟩ ∧
    UtcTime.fromDateTime ⟨2050, 1, 1, 0, 0, 0⟩ = .error (Err.value Tag.utcTime) :=
  ⟨((utc_from_date_time_max_year ⟨2049, 12, 31, 23, 59, 59⟩).1 (by decide)).1,
   ((utc_from_date_time_max_year ⟨2050, 1, 1, 0, 0, 0⟩).2 (by decide)).1⟩

/-- C10: every valid date-time with year at most 1949 is accepted by
from_date_time, yet the resulting UtcTime cannot be encoded: encode_value
fails with a value error (utc_time.rs lines 41-47 and 116-123). -/
theorem utc_constructible_not_encodable (dt : DateTime) (hv : dt.valid = true)
    (hy : dt.year ≤ 1949) :
    UtcTime.fromDateTime dt = .ok ⟨dt⟩ ∧
    UtcTime.encodeValue ⟨dt⟩ = .error (Err.value Tag.utcTime) := by
  constructor
  · unfold UtcTime.fromDateTime MAX_YEAR
    rw [if_pos (by omega)]
  · simp only [UtcTime.encodeValue]
    rw [if_neg (by omega), if_neg (by omega)]
    rfl

/-- C10 witness: 1949-12-31 23:59:59 is constructible but not
encodable. -/
theorem utc_constructible_not_encodable_witness :
    UtcTime.fromDateTime ⟨1949, 12, 31, 23, 59, 59⟩ =
      .ok ⟨⟨1949, 12, 31, 23, 59, 59⟩⟩ ∧
    UtcTime.encodeValue ⟨⟨1949, 12, 31, 23, 59, 59⟩⟩ =
      .error (Err.value Tag.utcTime) :=
  utc_constructible_not_encodable ⟨1949, 12, 31, 23, 59, 59⟩ (by decide) (by decide)

/-- C8: the reader's cursor invariant: the position never exceeds the
input length (holding initially and preserved by read_slice), and under
it remaining_len is the exact difference input_len - position and
is_finished holds exactly at position = input_len (reader.rs lines 23-25
and 67-70). -/
theorem reader_position_invariant (r : SliceReader) (n : Nat)
    (hr : r.position ≤ r.inputLen) :
    r.remainingLen = r.inputLen - r.position ∧
    (r.isFinished = true ↔ r.position = r.inputLen) ∧
    (SliceReader.mk r.input 0).position ≤ (SliceReader.mk r.input 0).inputLen ∧
    (∀ bs r', r.readSlice n = .ok (bs, r') →
      r'.position ≤ r'.inputLen ∧ r'.inputLen = r.inputLen) := by
  refine ⟨rfl, ?_, Nat.zero_le _, ?_⟩
  · unfold SliceReader.isFinished SliceReader.remainingLen
    simp only [beq_iff_eq]
    omega
  · intro bs r' hread
    unfold SliceReader.readSlice at hread
    by_cases hc : r.position + n ≤ r.input.length
    · rw [if_pos hc] at hread
      injection hread with hread
      rw [Prod.mk.injEq] at hread
      obtain ⟨hbs, hr2⟩ := hread
      subst hr2
      refine ⟨?_, rfl⟩
      show r.position + n ≤ r.input.length
      exact hc
    · rw [if_neg hc] at hread
      exact DerResult.noConfusion hread

/-- C8 witness: the invariant instantiated on a concrete reader state. -/
theorem reader_position_invariant_witness :
    (SliceReader.mk [1, 2, 3] 1).remainingLen =
        (SliceReader.mk [1, 2, 3] 1).inputLen - (SliceReader.mk [1, 2, 3] 1).position ∧
    ((SliceReader.mk [1, 2, 3] 1).isFinished = true ↔
        (SliceReader.mk [1, 2, 3] 1).position = (SliceReader.mk [1, 2, 3] 1).inputLen) ∧
    (SliceReader.mk [1, 2, 3] 0).position ≤ (SliceReader.mk [1, 2, 3] 0).inputLen ∧
    (∀ bs r', (SliceReader.mk [1, 2, 3] 1).readSlice 2 = .ok (bs, r') →
      r'.position ≤ r'.inputLen ∧ r'.inputLen = (SliceReader.mk [1, 2, 3] 1).inputLen) :=
  reader_position_invariant (SliceReader.mk [1, 2, 3] 1) 2 (by decide)

/-- C2 (amended): Option decoding yields absent without moving the reader
when the input is exhausted, and when the peeked byte parses as a tag the
inner type does not claim; a peeked byte that fails tag parsing instead
propagates that error (optional.rs lines 10-18). -/
theorem optional_decode_absent {α : Type} (C : Choice α) (r : SliceReader) :
    (r.peekByte = none → decodeOptional C r = .ok (none, r)) ∧
    (∀ b tag, r.peekByte = some b → Tag.tryFrom b = .ok tag →
      C.canDecode tag = false → decodeOptional C r = .ok (none, r)) ∧
    (∀ b e, r.peekByte = some b → Tag.tryFrom b = .error e →
      decodeOptional C r = .error e) := by
  refine ⟨?_, ?_, ?_⟩
  · intro hpeek
    simp only [decodeOptional, hpeek]
  · intro b tag hpeek htag hcan
    simp only [decodeOptional, hpeek, htag, hcan, Bool.false_eq_true, if_false]
  · intro b e hpeek htag
    simp only [decodeOptional, hpeek, htag]

/-- C2 witness: an exhausted reader and a reader whose next byte is a
SEQUENCE tag (not claimed by UtcTime) both yield absent with the reader
untouched. -/
theorem optional_decode_absent_witness :
    decodeOptional UtcTime.choice (SliceReader.mk [] 0) =
      .ok (none, SliceReader.mk [] 0) ∧
    decodeOptional UtcTime.choice (SliceReader.mk [0x30, 0x00] 0) =
      .ok (none, SliceReader.mk [0x30, 0x00] 0) :=
  ⟨(optional_decode_absent UtcTime.choice (SliceReader.mk [] 0)).1 rfl,
   (optional_decode_absent UtcTime.choice (SliceReader.mk [0x30, 0x00] 0)).2.1
      0x30 Tag.sequence rfl rfl rfl⟩

/-- C2 counterexample: with the next byte 0x00 — which no tag parses
from, so in particular not one UtcTime's can_decode claims — Option
decoding returns an error, not Ok(None) with the cursor unchanged. -/
theorem optional_decode_claim_counterexample :
    decodeOptional UtcTime.choice (SliceReader.mk [0x00] 0) =
      .error (Err.tagUnknown 0x00) ∧
    decodeOptional UtcTime.choice (SliceReader.mk [0x00] 0) ≠
      .ok (none, SliceReader.mk [0x00] 0) := by
  constructor
  · rfl
  · decide

set_option maxRecDepth 100000 in
set_option maxHeartbeats 4000000 in
/-- C7: decoding the 15-byte DER message 17 0d 39 31 30 35 30 36 32 33 34
35 34 30 5a yields the UTCTime 1991-05-06T23:45:40Z, whose Unix duration
is exactly 673573540 seconds, and re-encoding reproduces the identical
buffer (utc_time.rs test round_trip_vector). -/
theorem utc_round_trip_vector :
    UtcTime.fromDer [0x17, 0x0d, 0x39, 0x31, 0x30, 0x35, 0x30, 0x36,
        0x32, 0x33, 0x34, 0x35, 0x34, 0x30, 0x5a] =
      .ok ⟨⟨1991, 5, 6, 23, 45, 40⟩⟩ ∧
    UtcTime.toUnixDuration ⟨⟨1991, 5, 6, 23, 45, 40⟩⟩ = 673573540 ∧
    UtcTime.encode ⟨⟨1991, 5, 6, 23, 45, 40⟩⟩ =
      .ok [0x17, 0x0d, 0x39, 0x31, 0x30, 0x35, 0x30, 0x36,
        0x32, 0x33, 0x34, 0x35, 0x34, 0x30, 0x5a] := by
  refine ⟨by decide, by decide, by decide⟩

/-- C4: decode_value succeeds only on exactly 13 bytes of the form
YYMMDDHHMMSSZ with six strict two-digit decimal pairs; any other value —
wrong length, a non-digit in any pair, or a final byte other than the
literal Z — yields the value error tied to the UTCTime tag
(utc_time.rs lines 82-109). -/
theorem utc_decode_value_strict (bytes : List Nat)
    (hbad : conformsUtcTime bytes = false) :
    UtcTime.decodeValue bytes = .error (Err.value Tag.utcTime) := by
  unfold UtcTime.decodeValue
  split
  · rename_i y1 y2 mon1 mon2 day1 day2 hour1 hour2 min1 min2 sec1 sec2
    by_cases p1 : 48 ≤ y1 ∧ y1 ≤ 57 ∧ 48 ≤ y2 ∧ y2 ≤ 57
    all_goals try (simp only [decodeDecimal_error Tag.utcTime _ _ p1]; try rfl)
    by_cases p2 : 48 ≤ mon1 ∧ mon1 ≤ 57 ∧ 48 ≤ mon2 ∧ mon2 ≤ 57
    all_goals try (simp only [decodeDecimal_okEq Tag.utcTime _ _ p1,
      decodeDecimal_error Tag.utcTime _ _ p2]; try rfl)
    by_cases p3 : 48 ≤ day1 ∧ day1 ≤ 57 ∧ 48 ≤ day2 ∧ day2 ≤ 57
    all_goals try (simp only [decodeDecimal_okEq Tag.utcTime _ _ p1, decodeDecimal_okEq Tag.utcTime _ _ p2,
      decodeDecimal_error Tag.utcTime _ _ p3]; try rfl)
    by_cases p4 : 48 ≤ hour1 ∧ hour1 ≤ 57 ∧ 48 ≤ hour2 ∧ hour2 ≤ 57
    all_goals try (simp only [decodeDecimal_okEq Tag.utcTime _ _ p1, decodeDecimal_okEq Tag.utcTime _ _ p2,
      decodeDecimal_okEq Tag.utcTime _ _ p3, decodeDecimal_error Tag.utcTime _ _ p4]; try rfl)
    by_cases p5 : 48 ≤ min1 ∧ min1 ≤ 57 ∧ 48 ≤ min2 ∧ min2 ≤ 57
    all_goals try (simp only [decodeDecimal_okEq Tag.utcTime _ _ p1, decodeDecimal_okEq Tag.utcTime _ _ p2,
      decodeDecimal_okEq Tag.utcTime _ _ p3, decodeDecimal_okEq Tag.utcTime _ _ p4,
      decodeDecimal_error Tag.utcTime _ _ p5]; try rfl)
    by_cases p6 : 48 ≤ sec1 ∧ sec1 ≤ 57 ∧ 48 ≤ sec2 ∧ sec2 ≤ 57
    all_goals try (simp only [decodeDecimal_okEq Tag.utcTime _ _ p1, decodeDecimal_okEq Tag.utcTime _ _ p2,
      decodeDecimal_okEq Tag.utcTime _ _ p3, decodeDecimal_okEq Tag.utcTime _ _ p4,
      decodeDecimal_okEq Tag.utcTime _ _ p5, decodeDecimal_error Tag.utcTime _ _ p6]; try rfl)
    have htrue : conformsUtcTime [y1, y2, mon1, mon2, day1, day2, hour1, hour2,
        min1, min2, sec1, sec2, 90] = true := by
      simp only [conformsUtcTime, isDigit, Bool.and_eq_true, decide_eq_true_eq,
        beq_self_eq_true, and_true, true_and]
      omega
    rw [htrue] at hbad
    exact Bool.noConfusion hbad
  · rfl

/-- C4 witness: the empty value and a value with a bad trailing byte are
rejected with the UTCTime value error. -/
theorem utc_decode_value_strict_witness :
    UtcTime.decodeValue [] = .error (Err.value Tag.utcTime) ∧
    UtcTime.decodeValue [0x39, 0x31, 0x30, 0x35, 0x30, 0x36, 0x32, 0x33,
        0x34, 0x35, 0x34, 0x30, 0x2b] = .error (Err.value Tag.utcTime) :=
  ⟨utc_decode_value_strict [] (by decide),
   utc_decode_value_strict _ (by decide)⟩

/-- C3: every successfully decoded UTCTime interprets the two-digit year
YY as 1900+YY when YY is at least 50 and as 2000+YY otherwise
(utc_time.rs lines 94-100). -/
theorem utc_decode_year_pivot (y1 y2 : Nat) (rest : List Nat) (t : UtcTime) (yy : Nat)
    (hdec : UtcTime.decodeValue (y1 :: y2 :: rest) = .ok t)
    (hyy : decodeDecimal Tag.utcTime y1 y2 = .ok yy) :
    t.toDateTime.year = if 50 ≤ yy then 1900 + yy else 2000 + yy := by
  unfold UtcTime.decodeValue at hdec
  split at hdec
  · rename_i year1 year2 mon1 mon2 day1 day2 hour1 hour2 min1 min2 sec1 sec2 heq
    injection heq with h1 heq
    injection heq with h2 heq
    subst h1
    subst h2
    simp only [hyy] at hdec
    rcases hmon : decodeDecimal Tag.utcTime mon1 mon2 with month | e
    case error => simp only [hmon] at hdec; exact DerResult.noConfusion hdec
    simp only [hmon] at hdec
    rcases hday : decodeDecimal Tag.utcTime day1 day2 with day | e
    case error => simp only [hday] at hdec; exact DerResult.noConfusion hdec
    simp only [hday] at hdec
    rcases hhour : decodeDecimal Tag.utcTime hour1 hour2 with hour | e
    case error => simp only [hhour] at hdec; exact DerResult.noConfusion hdec
    simp only [hhour] at hdec
    rcases hmin : decodeDecimal Tag.utcTime min1 min2 with minute | e
    case error => simp only [hmin] at hdec; exact DerResult.noConfusion hdec
    simp only [hmin] at hdec
    rcases hsec : decodeDecimal Tag.utcTime sec1 sec2 with second | e
    case error => simp only [hsec] at hdec; exact DerResult.noConfusion hdec
    simp only [hsec] at hdec
    have hyy99 := decodeDecimal_le Tag.utcTime y1 y2 yy hyy
    generalize hY : (if 50 ≤ yy then yy + 1900 else yy + 2000) = Y at hdec
    rcases hnew : DateTime.new Y month day hour minute second with dt | e
    case error => simp only [hnew] at hdec; exact DerResult.noConfusion hdec
    simp only [hnew] at hdec
    simp only [DateTime.new] at hnew
    split at hnew
    case isFalse => exact DerResult.noConfusion hnew
    rename_i hval
    injection hnew with hnew
    subst hnew
    have hb : 1950 ≤ Y ∧ Y ≤ 2049 := by
      rw [← hY]
      split <;> omega
    rw [UtcTime.fromUnixDuration_of_valid _ hval hb.2] at hdec
    injection hdec with hdec
    subst hdec
    show Y = if 50 ≤ yy then 1900 + yy else 2000 + yy
    rw [← hY]
    split <;> omega
  · exact DerResult.noConfusion hdec

set_option maxRecDepth 100000 in
set_option maxHeartbeats 4000000 in
/-- C3 witness: two-digit year 49 decodes to 2049 and 50 decodes to
1950, at the year-pivot boundary. -/
theorem utc_decode_year_pivot_witness :
    UtcTime.decodeValue [52, 57, 48, 49, 48, 49, 48, 48, 48, 48, 48, 48, 90] =
      .ok ⟨⟨2049, 1, 1, 0, 0, 0⟩⟩ ∧
    (⟨⟨2049, 1, 1, 0, 0, 0⟩⟩ : UtcTime).toDateTime.year =
      (if 50 ≤ 49 then 1900 + 49 else 2000 + 49) ∧
    UtcTime.decodeValue [53, 48, 48, 49, 48, 49, 48, 48, 48, 48, 48, 48, 90] =
      .ok ⟨⟨1950, 1, 1, 0, 0, 0⟩⟩ ∧
    (⟨⟨1950, 1, 1, 0, 0, 0⟩⟩ : UtcTime).toDateTime.year =
      (if 50 ≤ 50 then 1900 + 50 else 2000 + 50) :=
  ⟨by decide,
   utc_decode_year_pivot 52 57 [48, 49, 48, 49, 48, 48, 48, 48, 48, 48, 90]
     ⟨⟨2049, 1, 1, 0, 0, 0⟩⟩ 49 (by decide) (by decide),
   by decide,
   utc_decode_year_pivot 53 48 [48, 49, 48, 49, 48, 48, 48, 48, 48, 48, 90]
     ⟨⟨1950, 1, 1, 0, 0, 0⟩⟩ 50 (by decide) (by decide)⟩

/-- Decoding the canonical two-digit encoding of valid date-time
components recovers exactly that date-time. -/
theorem utc_decode_of_digits (y mo d h mi s yy : Nat)
    (hv : DateTime.valid ⟨y, mo, d, h, mi, s⟩ = true)
    (h1 : 1950 ≤ y) (h2 : y ≤ 2049) (hyy : yy ≤ 99)
    (hpiv : (if 50 ≤ yy then yy + 1900 else yy + 2000) = y) :
    UtcTime.decodeValue [yy / 10 + 48, yy % 10 + 48, mo / 10 + 48, mo % 10 + 48,
      d / 10 + 48, d % 10 + 48, h / 10 + 48, h % 10 + 48, mi / 10 + 48, mi % 10 + 48,
      s / 10 + 48, s % 10 + 48, 90] = .ok ⟨⟨y, mo, d, h, mi, s⟩⟩ := by
  obtain ⟨hy1, hmo1, hmo2, hd1, hd2, hh, hmi, hs⟩ := (DateTime.valid_iff _).mp hv
  simp only at hy1 hmo1 hmo2 hd1 hd2 hh hmi hs
  have hd31 : d ≤ 31 := Nat.le_trans hd2 (daysInMonth_le y mo)
  simp only [UtcTime.decodeValue,
    decodeDecimal_encode Tag.utcTime yy hyy,
    decodeDecimal_encode Tag.utcTime mo (by omega),
    decodeDecimal_encode Tag.utcTime d (by omega),
    decodeDecimal_encode Tag.utcTime h (by omega),
    decodeDecimal_encode Tag.utcTime mi (by omega),
    decodeDecimal_encode Tag.utcTime s (by omega)]
  rw [hpiv]
  simp only [DateTime.new]
  rw [if_pos hv]
  show UtcTime.fromUnixDuration (DateTime.unixDuration ⟨y, mo, d, h, mi, s⟩) =
    .ok ⟨⟨y, mo, d, h, mi, s⟩⟩
  exact UtcTime.fromUnixDuration_of_valid _ hv h2

/-- C1: every UtcTime whose year lies in [1950, 2049] round-trips through
encode_value and decode_value, encode_value writes exactly value_len = 13
bytes, and the full encoding likewise writes exactly encoded_len bytes
(utc_time.rs lines 82-109 and 111-133). -/
theorem utc_encode_decode_roundtrip (dt : DateTime) (hv : dt.valid = true)
    (h1 : 1950 ≤ dt.year) (h2 : dt.year ≤ 2049) :
    ∃ bs, UtcTime.encodeValue ⟨dt⟩ = .ok bs ∧
      UtcTime.decodeValue bs = .ok ⟨dt⟩ ∧
      UtcTime.valueLen ⟨dt⟩ = .ok bs.length ∧ bs.length = 13 ∧
      UtcTime.encode ⟨dt⟩ = .ok (Tag.utcTime.toByte :: 13 :: bs) ∧
      UtcTime.encodedLen ⟨dt⟩ = .ok (Tag.utcTime.toByte :: 13 :: bs).length := by
  obtain ⟨y, mo, d, h, mi, s⟩ := dt
  obtain ⟨hy1, hmo1, hmo2, hd1, hd2, hh, hmi, hs⟩ := (DateTime.valid_iff _).mp hv
  simp only at hy1 hmo1 hmo2 hd1 hd2 hh hmi hs
  have hd31 : d ≤ 31 := Nat.le_trans hd2 (daysInMonth_le y mo)
  have h1y : 1950 ≤ y := h1
  have h2y : y ≤ 2049 := h2
  by_cases hA : y ≤ 1999
  · have henc : UtcTime.encodeValue ⟨⟨y, mo, d, h, mi, s⟩⟩ =
        .ok [(y - 1900) / 10 + 48, (y - 1900) % 10 + 48, mo / 10 + 48, mo % 10 + 48,
          d / 10 + 48, d % 10 + 48, h / 10 + 48, h % 10 + 48, mi / 10 + 48,
          mi % 10 + 48, s / 10 + 48, s % 10 + 48, 90] := by
      simp only [UtcTime.encodeValue]
      rw [if_pos ⟨h1y, hA⟩]
      simp only [encodeDecimal_ok Tag.utcTime (y - 1900) (by omega),
        encodeDecimal_ok Tag.utcTime mo (by omega),
        encodeDecimal_ok Tag.utcTime d (by omega),
        encodeDecimal_ok Tag.utcTime h (by omega),
        encodeDecimal_ok Tag.utcTime mi (by omega),
        encodeDecimal_ok Tag.utcTime s (by omega)]
      rfl
    refine ⟨_, henc, ?_, rfl, rfl, ?_, rfl⟩
    · exact utc_decode_of_digits y mo d h mi s (y - 1900) hv h1y h2y (by omega)
        (by rw [if_pos (by omega)]; omega)
    · simp only [UtcTime.encode, UtcTime.valueLen, henc]
      rfl
  · have henc : UtcTime.encodeValue ⟨⟨y, mo, d, h, mi, s⟩⟩ =
        .ok [(y - 2000) / 10 + 48, (y - 2000) % 10 + 48, mo / 10 + 48, mo % 10 + 48,
          d / 10 + 48, d % 10 + 48, h / 10 + 48, h % 10 + 48, mi / 10 + 48,
          mi % 10 + 48, s / 10 + 48, s % 10 + 48, 90] := by
      simp only [UtcTime.encodeValue]
      rw [if_neg (by omega), if_pos ⟨by omega, h2y⟩]
      simp only [encodeDecimal_ok Tag.utcTime (y - 2000) (by omega),
        encodeDecimal_ok Tag.utcTime mo (by omega),
        encodeDecimal_ok Tag.utcTime d (by omega),
        encodeDecimal_ok Tag.utcTime h (by omega),
        encodeDecimal_ok Tag.utcTime mi (by omega),
        encodeDecimal_ok Tag.utcTime s (by omega)]
      rfl
    refine ⟨_, henc, ?_, rfl, rfl, ?_, rfl⟩
    · exact utc_decode_of_digits y mo d h mi s (y - 2000) hv h1y h2y (by omega)
        (by rw [if_neg (by omega)]; omega)
    · simp only [UtcTime.encode, UtcTime.valueLen, henc]
      rfl

/-- C1 witness: the round-trip at the concrete value
1991-05-06T23:45:40Z. -/
theorem utc_encode_decode_roundtrip_witness :
    ∃ bs, UtcTime.encodeValue ⟨⟨1991, 5, 6, 23, 45, 40⟩⟩ = .ok bs ∧
      UtcTime.decodeValue bs = .ok ⟨⟨1991, 5, 6, 23, 45, 40⟩⟩ ∧
      UtcTime.valueLen ⟨⟨1991, 5, 6, 23, 45, 40⟩⟩ = .ok bs.length ∧ bs.length = 13 ∧
      UtcTime.encode ⟨⟨1991, 5, 6, 23, 45, 40⟩⟩ = .ok (Tag.utcTime.toByte :: 13 :: bs) ∧
      UtcTime.encodedLen ⟨⟨1991, 5, 6, 23, 45, 40⟩⟩ =
        .ok (Tag.utcTime.toByte :: 13 :: bs).length :=
  utc_encode_decode_roundtrip ⟨1991, 5, 6, 23, 45, 40⟩ (by decide) (by decide) (by decide)
